import Mathlib

/-!
Verification development for the jsoncons snapshot:
  * `bson_reader.hpp` — `basic_bson_reader` (binary BSON decoder emitting
    push events to a `json_content_handler`) and `decode_bson`;
  * `conversion.hpp` — `conversion_traits` decode specializations for
    map-like containers and `std::array<T,N>`;
  * `json_deserializer.hpp` — `basic_json_deserializer` (stack-of-frames
    builder turning events into a document value).

Inputs are modelled as lists of byte values (`List Nat`, each element a
byte value; the multi-byte integer assemblers reduce every element
mod 256, as the C++ `uint8_t` type does).  Exceptions
(`JSONCONS_THROW(bson_error(0))`) are modelled by the `thrown` outcome;
recursion is made total with a fuel argument, exhaustion being reported
by the distinct `outOfFuel` outcome so that `thrown`/`ok` results mirror
the C++ behaviour exactly.
-/

namespace BsonReader

/-- Events emitted to the `json_content_handler`.  Every handler call in
the modelled source passes `semantic_tag_type::none` except the
timestamp case, whose fixed `epoch_time` tag is not observable by any
property treated here, so the tag argument is omitted.  The `double`
payload is kept as its raw 8 little-endian bytes (its IEEE bit
pattern). -/
inductive BEvent where
  | beginObject : BEvent
  | endObject : BEvent
  | beginArray : BEvent
  | endArray : BEvent
  | name : List Nat → BEvent
  | stringValue : List Nat → BEvent
  | byteStringValue : List Nat → BEvent
  | doubleValue : List Nat → BEvent
  | int64Value : Int → BEvent
  | uint64Value : Nat → BEvent
  | boolValue : Bool → BEvent
  | nullValue : BEvent
deriving DecidableEq, Repr

/-- The reader's state: the remaining bytes of the `buffer_source`, the
events emitted so far to the handler, the `nesting_depth_` member and
the `std::error_code& ec` out-parameter (`true` iff populated). -/
structure BState where
  input : List Nat
  events : List BEvent
  depth : Nat
  ec : Bool
deriving DecidableEq, Repr

/-- Outcome of a reader member function: normal return, an escaped
`JSONCONS_THROW(bson_error(0))`, or fuel exhaustion (an artefact of the
embedding only — no C++ execution maps to it). -/
inductive BResult where
  | ok : BState → BResult
  | thrown : BState → BResult
  | outOfFuel : BState → BResult
deriving DecidableEq, Repr

/-- `source_.get(c)`: one byte, or failure (count 0) at end of input. -/
def srcGet (s : BState) : Option (Nat × BState) :=
  match s.input with
  | [] => none
  | b :: rest => some (b, { s with input := rest })

/-- `source_.read(buf, n)` / `source_.read(n, back_inserter)`: `n` bytes
or a short read (the call sites compare the returned count with `n` and
throw on a mismatch, so a short read is modelled as `none`). -/
def srcReadN (n : Nat) (s : BState) : Option (List Nat × BState) :=
  if n ≤ s.input.length then
    some (s.input.take n, { s with input := s.input.drop n })
  else
    none

/-- `handler_.xxx(...)`: append one event. -/
def emit (e : BEvent) (s : BState) : BState :=
  { s with events := s.events ++ [e] }

/-- `handler_.begin_object/begin_array` followed by `++nesting_depth_`. -/
def beginStruct (e : BEvent) (s : BState) : BState :=
  ⟨s.input, s.events ++ [e], s.depth + 1, s.ec⟩

/-- `handler_.end_object/end_array` followed by `--nesting_depth_`
(the decrement never runs at depth 0 on these paths, so the `Nat`
truncation is inert). -/
def endStruct (e : BEvent) (s : BState) : BState :=
  ⟨s.input, s.events ++ [e], s.depth - 1, s.ec⟩

/-- `jsoncons::detail::from_little_endian`, unsigned assembly: the bytes
in little-endian order (each reduced mod 256, as `uint8_t` storage
does). -/
def leNat (bs : List Nat) : Nat :=
  bs.foldr (fun b acc => b % 256 + 256 * acc) 0

/-- `from_little_endian<int32_t>` on a 4-byte buffer: two's-complement
signed value. -/
def int32ofLE (bs : List Nat) : Int :=
  let n := leNat bs
  if n < 2 ^ 31 then (n : Int) else (n : Int) - 2 ^ 32

/-- `from_little_endian<int64_t>` on an 8-byte buffer. -/
def int64ofLE (bs : List Nat) : Int :=
  let n := leNat bs
  if n < 2 ^ 63 then (n : Int) else (n : Int) - 2 ^ 64

/-- The C++ conversion of a (possibly negative) signed value to
`size_t`, as happens when `len-1` or `len` is passed to a
`size_t`-count read or to `std::vector`'s size constructor. -/
def sizeTofNat (x : Int) : Nat :=
  (x % (2 ^ 64 : Int)).toNat

/-- Modelled from the spec: the type-tag constants of `bson_format`
(`bson_detail.hpp`, not under `src/`); the spec fixes the wire format
as "the BSON byte layout" (§6), whose standard tag values these are. -/
def double_cd : Nat := 0x01

def string_cd : Nat := 0x02

def document_cd : Nat := 0x03

def array_cd : Nat := 0x04

def binary_cd : Nat := 0x05

def bool_cd : Nat := 0x08

def null_cd : Nat := 0x0A

def int32_cd : Nat := 0x10

def timestamp_cd : Nat := 0x11

def int64_cd : Nat := 0x12

/-- Modelled from the spec: `bson_structure_type` (`bson_detail.hpp`,
not under `src/`) — the discriminator `parse_e_list` receives, document
vs. array (§4.3's `is_document` flag). -/
inductive StructType where
  | document : StructType
  | array : StructType
deriving DecidableEq, Repr

/-- The element-name scan of `parse_e_list`:
`while (source_.get(c) > 0 && c != 0) s.push_back(c);` — collects bytes
up to (and consuming) a NUL, or up to end of input.  Returns the name
bytes and the remaining input. -/
def readCString : List Nat → List Nat × List Nat
  | [] => ([], [])
  | b :: rest =>
    if b = 0 then ([], rest)
    else (b :: (readCString rest).1, (readCString rest).2)

/-- The conditional `name` emission of `parse_e_list`:
`if (type == bson_structure_type::document) handler_.name(...)`. -/
def withName (ty : StructType) (nm : List Nat) (s : BState) : BState :=
  if ty = .document then emit (.name nm) s else s

mutual

/-- `basic_bson_reader::read(std::error_code& ec)`: read and discard the
4-byte total length (throwing on a short read), emit `begin_object`,
increment `nesting_depth_`, parse the element list as a document, emit
`end_object`, decrement `nesting_depth_`. -/
def read : Nat → BState → BResult
  | 0, s => .outOfFuel s
  | fuel + 1, s =>
    match srcReadN 4 s with
    | none => .thrown s
    | some (_len, s1) =>
      match parse_e_list fuel .document (beginStruct .beginObject s1) with
      | .ok s3 => .ok (endStruct .endObject s3)
      | r => r

/-- `basic_bson_reader::parse_e_list`: repeatedly read a tag byte; end
of input or a `0x00` tag ends the list; otherwise scan the
NUL-terminated element name, emit it via `name` only when the structure
type is `document`, and dispatch `parse_some(t, ec)`. -/
def parse_e_list : Nat → StructType → BState → BResult
  | 0, _, s => .outOfFuel s
  | fuel + 1, ty, s =>
    match srcGet s with
    | none => .ok s
    | some (t, s1) =>
      if t = 0 then .ok s1
      else
        match readCString s1.input with
        | (nm, rest) =>
          match parse_some fuel t (withName ty nm { s1 with input := rest }) with
          | .ok s4 => parse_e_list fuel ty s4
          | r => r

/-- `basic_bson_reader::parse_some(uint8_t type, std::error_code& ec)`:
the per-tag decoding switch.  A tag matching no case falls out of the
switch and returns with the state untouched.  Allocation failures
(`reserve`/`vector` construction for adversarial lengths) are
conflated with the short-read throw, as no treated property
distinguishes them. -/
def parse_some : Nat → Nat → BState → BResult
  | 0, _, s => .outOfFuel s
  | fuel + 1, t, s =>
    if t = double_cd then
      match srcReadN 8 s with
      | none => .thrown s
      | some (bs, s1) => .ok (emit (.doubleValue bs) s1)
    else if t = string_cd then
      match srcReadN 4 s with
      | none => .thrown s
      | some (lb, s1) =>
        match srcReadN (sizeTofNat (int32ofLE lb - 1)) s1 with
        | none => .thrown s1
        | some (txt, s2) =>
          -- uint8_t c; source_.get(c); // discard 0 — unchecked
          match srcGet s2 with
          | none => .ok (emit (.stringValue txt) s2)
          | some (_, s3) => .ok (emit (.stringValue txt) s3)
    else if t = document_cd then
      match read fuel s with
      | .ok s1 => .ok s1   -- `if (ec) return;` then `break;`: same result
      | r => r
    else if t = array_cd then
      match srcReadN 4 s with
      | none => .thrown s
      | some (_len, s1) =>
        -- NOTE: the source passes bson_structure_type::document here.
        match parse_e_list fuel .document (beginStruct .beginArray s1) with
        | .ok s3 => .ok (endStruct .endArray s3)
        | r => r
    else if t = null_cd then
      .ok (emit .nullValue s)
    else if t = bool_cd then
      match srcGet s with
      | none => .thrown s
      | some (b, s1) => .ok (emit (.boolValue (decide (b % 256 ≠ 0))) s1)
    else if t = int32_cd then
      match srcReadN 4 s with
      | none => .thrown s
      | some (bs, s1) => .ok (emit (.int64Value (int32ofLE bs)) s1)
    else if t = timestamp_cd then
      match srcReadN 8 s with
      | none => .thrown s
      | some (bs, s1) => .ok (emit (.uint64Value (leNat bs)) s1)
    else if t = int64_cd then
      match srcReadN 8 s with
      | none => .thrown s
      | some (bs, s1) => .ok (emit (.int64Value (int64ofLE bs)) s1)
    else if t = binary_cd then
      match srcReadN 4 s with
      | none => .thrown s
      | some (lb, s1) =>
        match srcReadN (sizeTofNat (int32ofLE lb)) s1 with
        | none => .thrown s1
        | some (bs, s2) => .ok (emit (.byteStringValue bs) s2)
    else
      .ok s

end

/-- One step of the bracket-matching check on the emitted event stream:
a begin event pushes its kind (`true` = object, `false` = array), an
end event pops a matching kind, every scalar event leaves the stack
unchanged. -/
def balStep : BEvent → List Bool → Option (List Bool)
  | .beginObject, st => some (true :: st)
  | .beginArray, st => some (false :: st)
  | .endObject, st =>
    match st with
    | true :: r => some r
    | _ => none
  | .endArray, st =>
    match st with
    | false :: r => some r
    | _ => none
  | _, st => some st

/-- Run the bracket-matching check over an event list. -/
def balRun : List BEvent → List Bool → Option (List Bool)
  | [], st => some st
  | e :: es, st =>
    match balStep e st with
    | none => none
    | some st' => balRun es st'

/-- An event list is balance-neutral: running it from any bracket stack
returns that stack — every begin it contains is matched, in order and
in kind, by an end it contains, and vice versa. -/
def Neutral (es : List BEvent) : Prop :=
  ∀ st, balRun es st = some st

/-- Events that leave the bracket stack unchanged. -/
def isScalarEv : BEvent → Bool
  | .beginObject | .endObject | .beginArray | .endArray => false
  | _ => true

/-- The fresh state `decode_bson` (and the tests here) start from. -/
def initState (input : List Nat) : BState :=
  { input := input, events := [], depth := 0, ec := false }

/-- How `decode_bson` terminates: normally, by a `bson_error` escaping
from `parser.read(ec)`, or by its own `throw parse_error(ec, ...)`
taken when `ec` is populated after the call.  (`outOfFuel` again only
marks fuel exhaustion of the embedding.) -/
inductive DecodeOutcome where
  | ok : BState → DecodeOutcome
  | bsonError : BState → DecodeOutcome
  | parseError : BState → DecodeOutcome
  | outOfFuel : BState → DecodeOutcome
deriving DecidableEq, Repr

/-- `decode_bson`: run `parser.read(ec)` on a fresh decoder and report
how the call ended. -/
def decode_bson (fuel : Nat) (input : List Nat) : DecodeOutcome :=
  match read fuel (initState input) with
  | .thrown s => .bsonError s
  | .outOfFuel s => .outOfFuel s
  | .ok s => if s.ec then .parseError s else .ok s

end BsonReader

namespace Codec

/-!
`conversion_traits` decode specializations (`conversion.hpp`).

The staj iterators these loops drive (`basic_staj_object_iterator`,
`basic_staj_array_iterator`, `staj_iterator.hpp`) are not under `src/`.
Modelled from the spec (§4.5): an object iterator yields the stream's
(key, value) pairs in order, an array iterator yields the stream's
elements in order, each value recursively decoded into the target
element type; both are single-pass.  The loops below therefore take the
iterator's yielded sequence as a list.
-/

/-- Events of the format-agnostic staj layer, restricted to flat
object streams with 64-bit integer scalar values (the instantiation
used to examine the map-like decode). -/
inductive CEvent where
  | beginObject : CEvent
  | endObject : CEvent
  | name : String → CEvent
  | intValue : Int → CEvent
deriving DecidableEq, Repr

/-- Modelled from the spec: the pairs a `basic_staj_object_iterator`
yields for a flat object event stream (§4.5) —
`BeginObject (Name k, scalar)* EndObject` yields the `(k, scalar)`
pairs in stream order; `none` on a malformed stream. -/
def objectStreamPairs : List CEvent → Option (List (String × Int))
  | CEvent.beginObject :: rest => objectStreamEntries rest
  | _ => none
where
  objectStreamEntries : List CEvent → Option (List (String × Int))
    | [CEvent.endObject] => some []
    | CEvent.name k :: CEvent.intValue v :: rest =>
      (objectStreamEntries rest).map (fun ps => (k, v) :: ps)
    | _ => none

/-- `std::map<K,V>::emplace(k, v)`: inserts only when no element with
key `k` is present (C++ standard associative-container semantics); the
map is modelled as its entry list. -/
def mapEmplace (m : List (String × α)) (k : String) (v : α) : List (String × α) :=
  if m.any (fun p => p.1 = k) then m else m ++ [(k, v)]

/-- `conversion_traits<map-like>::decode`: `T m; for (kv : it)
m.emplace(kv.first, kv.second); return m;` over the pairs the object
iterator yields.  (The `error_code` overload runs the same
`emplace` loop, pulling pairs while no error is pending.) -/
def mapDecode (pairs : List (String × α)) : List (String × α) :=
  pairs.foldl (fun m kv => mapEmplace m kv.1 kv.2) []

/-- `std::map::find`/`at` on the modelled entry list (keys are unique
by construction of `mapEmplace`). -/
def mapLookup (m : List (String × α)) (k : String) : Option α :=
  (m.find? (fun p => p.1 = k)).map (fun p => p.2)

/-- The assignment loop of `conversion_traits<std::array<T,N>>::decode`:
`size_t i = 0; for (item : it) { if (i < N) v[i++] = item; }` — the
range-for drains the iterator, assigning only the first `N` elements. -/
def arrayFillLoop (K : Nat) : List α → List α → Nat → List α
  | [], v, _ => v
  | x :: xs, v, i =>
    if i < K then arrayFillLoop K xs (v.set i x) (i + 1)
    else arrayFillLoop K xs v i

/-- `conversion_traits<std::array<T,N>>::decode`: `std::array<T,N> v;`
(each slot starting as its default-initialized value `d`) then the
assignment loop. -/
def stdArrayDecode (K : Nat) (d : α) (elems : List α) : List α :=
  arrayFillLoop K elems (List.replicate K d) 0

/-- The loop of the `error_code` overload:
`for (size_t i = 0; it != end && i < N && !ec; ++i) { v[i] = *it;
it->increment(ec); }` — stops pulling once `i = N`, leaving the rest of
the stream unconsumed.  Pulling an element of the yielded sequence
never populates `ec` (the iterator errors only on malformed streams,
and the yielded sequence is already given), so the loop body never
observes `ec` set. -/
def arrayFillLoopEc (K : Nat) : List α → List α → Nat → List α
  | [], v, _ => v
  | x :: xs, v, i =>
    if i < K then arrayFillLoopEc K xs (v.set i x) (i + 1)
    else v

/-- `conversion_traits<std::array<T,N>>::decode` (`error_code`
overload): the filled array and the final `ec` state (`false` = no
error reported). -/
def stdArrayDecodeEc (K : Nat) (d : α) (elems : List α) : List α × Bool :=
  (arrayFillLoopEc K elems (List.replicate K d) 0, false)

end Codec

namespace Builder

/-!
`basic_json_deserializer` (`json_deserializer.hpp`): the stack-of-frames
builder.
-/

/-- The document value (`basic_json`): the constructors the builder
produces.  (Floating-point scalars are omitted: no treated property
involves them.) -/
inductive JValue where
  | null : JValue
  | bool : Bool → JValue
  | int : Int → JValue
  | uint : Nat → JValue
  | str : String → JValue
  | object : List (String × JValue) → JValue
  | array : List JValue → JValue

/-- `stack_item`: an in-progress object (owning its member list) or
in-progress array (owning its item list); each carries the `name_`
field holding the pending key last recorded by `do_name`. -/
inductive BFrame where
  | objF : String → List (String × JValue) → BFrame
  | arrF : String → List JValue → BFrame

/-- The deserializer's state: the frame stack (head = `stack_.back()`)
and `root_`. -/
structure BuilderState where
  stack : List BFrame
  root : JValue

/-- Modelled from the spec: `json_object::sort_members`
(`json_structures.hpp`, not under `src/`) — finalization makes object
keys unique, last write for a duplicate key winning (§3). -/
def finalizeMembers : List (String × JValue) → List (String × JValue)
  | [] => []
  | (k, v) :: rest =>
    if rest.any (fun p => p.1 = k) then finalizeMembers rest
    else (k, v) :: finalizeMembers rest

/-- Appending a finalized value to the new top frame: under the frame's
pending key (`push_back(std::move(name_), std::move(val))`) when it is
an object, positionally when it is an array.  (The moved-from state of
`name_` is unspecified in C++ and not modelled.) -/
def frameAppend (f : BFrame) (val : JValue) : BFrame :=
  match f with
  | .objF n ms => .objF n (ms ++ [(n, val)])
  | .arrF n is => .arrF n (is ++ [val])

/-- `do_end_object`: sort the top object's members, release it into a
value, pop; then append to the new top or, if the stack emptied, make
it the root (`root_.swap(val)`).  `none` models the undefined behaviour
of `stack_.back()` on an empty stack / `object_->sort_members()` on an
array frame's null `object_`. -/
def do_end_object (st : BuilderState) : Option BuilderState :=
  match st.stack with
  | BFrame.objF _ ms :: rest =>
    let val := JValue.object (finalizeMembers ms)
    match rest with
    | [] => some { stack := [], root := val }
    | g :: gs => some { stack := frameAppend g val :: gs, root := st.root }
  | _ => none

/-- `do_end_array`: release the top array into a value, pop; then
append to the new top or, if the stack emptied, make it the root
(`root_ = std::move(val)`). -/
def do_end_array (st : BuilderState) : Option BuilderState :=
  match st.stack with
  | BFrame.arrF _ is :: rest =>
    let val := JValue.array is
    match rest with
    | [] => some { stack := [], root := val }
    | g :: gs => some { stack := frameAppend g val :: gs, root := st.root }
  | _ => none

end Builder

/-!
Theorems.
-/

open BsonReader Codec Builder

/-- Reading `n` bytes changes only the input. -/
theorem srcReadN_fields {n : Nat} {s s' : BState} {bs : List Nat}
    (h : srcReadN n s = some (bs, s')) :
    s'.events = s.events ∧ s'.depth = s.depth ∧ s'.ec = s.ec := by
  unfold srcReadN at h
  split at h
  · injection h with h'
    injection h' with h1 h2
    subst h2
    exact ⟨rfl, rfl, rfl⟩
  · exact absurd h (by simp)

/-- Getting one byte changes only the input. -/
theorem srcGet_fields {s s' : BState} {b : Nat}
    (h : srcGet s = some (b, s')) :
    s'.events = s.events ∧ s'.depth = s.depth ∧ s'.ec = s.ec := by
  unfold srcGet at h
  split at h
  · exact absurd h (by simp)
  · injection h with h'
    injection h' with h1 h2
    subst h2
    exact ⟨rfl, rfl, rfl⟩

/-- C1: the claim states that for an embedded BSON array the decoder
emits no `Name` event for the array's elements.  The source instead
passes `bson_structure_type::document` to `parse_e_list` in the
`array_cd` case of `parse_some`, so the element names of an array are
emitted as `Name` events.  Witness input: a document `{"a": [null]}`;
the decoder emits `Name [48]` (the index name "0") between
`BeginArray` and `EndArray`. -/
theorem c1_array_elements_get_name_events :
    read 10 (initState [0, 0, 0, 0, 4, 97, 0, 0, 0, 0, 0, 10, 48, 0, 0, 0]) =
      BResult.ok
        { input := [],
          events := [BEvent.beginObject, BEvent.name [97], BEvent.beginArray,
                     BEvent.name [48], BEvent.nullValue, BEvent.endArray,
                     BEvent.endObject],
          depth := 0,
          ec := false } := by
  decide

/-- C3 counterexample: on empty (hence truncated) input,
`read(std::error_code&)` raises (`bson_error` escapes) instead of
populating `ec`, and `decode_bson` observes a raised `bson_error`, not
a populated error code. -/
theorem c3_counterexample :
    read 1 (initState []) = BResult.thrown (initState []) ∧
    (initState []).ec = false ∧
    decode_bson 1 [] = DecodeOutcome.bsonError (initState []) := by
  decide

/-- C3 as amended: for every input shorter than the 4-byte length
prefix, `read` raises `bson_error` (modelled by the `thrown` outcome),
the error-code slot stays unpopulated, and `decode_bson` observes the
failure as the escaping `bson_error`, never through `ec`. -/
theorem c3_truncated_read_raises (fuel : Nat) (input : List Nat)
    (h : input.length < 4) :
    read (fuel + 1) (initState input) = BResult.thrown (initState input) ∧
    (initState input).ec = false ∧
    decode_bson (fuel + 1) input = DecodeOutcome.bsonError (initState input) := by
  have h4 : ¬ (4 ≤ (initState input).input.length) := by
    simp only [initState]
    omega
  have hread : read (fuel + 1) (initState input) = BResult.thrown (initState input) := by
    unfold BsonReader.read srcReadN
    rw [if_neg h4]
  refine ⟨hread, rfl, ?_⟩
  unfold decode_bson
  rw [hread]

/-- C3 amended, witnessed at the concrete truncated input `[1, 2]`. -/
theorem c3_truncated_read_raises_witness :
    read 1 (initState [1, 2]) = BResult.thrown (initState [1, 2]) ∧
    (initState [1, 2]).ec = false ∧
    decode_bson 1 [1, 2] = DecodeOutcome.bsonError (initState [1, 2]) :=
  c3_truncated_read_raises 0 [1, 2] (by decide)

/-- C6: a tag byte matching no case of the decoding table (`double`,
`string`, `document`, `array`, `binary`, `bool`, `null`, `int32`,
`timestamp`, `int64`) falls out of `parse_some`'s switch: no payload
byte is consumed, no event is emitted, no error is signalled — the
state is returned untouched. -/
theorem c6_unknown_tag_is_skipped (fuel t : Nat) (s : BState)
    (hbyte : t < 256)
    (hunk : t ∉ ([0x01, 0x02, 0x03, 0x04, 0x05, 0x08, 0x0A, 0x10, 0x11, 0x12] : List Nat)) :
    parse_some (fuel + 1) t s = BResult.ok s := by
  simp only [List.mem_cons, List.not_mem_nil, or_false, not_or] at hunk
  obtain ⟨h1, h2, h3, h4, h5, h8, h10, h16, h17, h18⟩ := hunk
  unfold parse_some
  simp only [double_cd, string_cd, document_cd, array_cd, binary_cd, bool_cd,
    null_cd, int32_cd, timestamp_cd, int64_cd]
  rw [if_neg h1, if_neg h2, if_neg h3, if_neg h4, if_neg h10, if_neg h8,
    if_neg h16, if_neg h17, if_neg h18, if_neg h5]

/-- C6 witnessed at the unrecognized tag byte `0x7F`. -/
theorem c6_unknown_tag_is_skipped_witness :
    parse_some 1 0x7F (initState [1, 2, 3]) = BResult.ok (initState [1, 2, 3]) :=
  c6_unknown_tag_is_skipped 0 0x7F (initState [1, 2, 3]) (by decide) (by decide)

/-- C7: with a non-empty frame stack, `do_end_object`/`do_end_array`
pop the top frame and finalize it into a value; if the stack emptied
the value becomes the document root, otherwise it is appended to the
new top frame — under that frame's pending key when it is an object
frame, positionally when it is an array frame.  (All six shape cases.) -/
theorem c7_end_pops_finalizes_and_routes (nm gnm : String)
    (ms gms : List (String × JValue)) (items gitems : List JValue)
    (gs : List BFrame) (root : JValue) :
    (do_end_object ⟨[BFrame.objF nm ms], root⟩ =
        some ⟨[], JValue.object (finalizeMembers ms)⟩) ∧
    (do_end_object ⟨BFrame.objF nm ms :: BFrame.objF gnm gms :: gs, root⟩ =
        some ⟨BFrame.objF gnm
                (gms ++ [(gnm, JValue.object (finalizeMembers ms))]) :: gs, root⟩) ∧
    (do_end_object ⟨BFrame.objF nm ms :: BFrame.arrF gnm gitems :: gs, root⟩ =
        some ⟨BFrame.arrF gnm
                (gitems ++ [JValue.object (finalizeMembers ms)]) :: gs, root⟩) ∧
    (do_end_array ⟨[BFrame.arrF nm items], root⟩ =
        some ⟨[], JValue.array items⟩) ∧
    (do_end_array ⟨BFrame.arrF nm items :: BFrame.objF gnm gms :: gs, root⟩ =
        some ⟨BFrame.objF gnm (gms ++ [(gnm, JValue.array items)]) :: gs, root⟩) ∧
    (do_end_array ⟨BFrame.arrF nm items :: BFrame.arrF gnm gitems :: gs, root⟩ =
        some ⟨BFrame.arrF gnm (gitems ++ [JValue.array items]) :: gs, root⟩) :=
  ⟨rfl, rfl, rfl, rfl, rfl, rfl⟩

/-- The little-endian assembly of a byte list is bounded by
`256 ^ length`. -/
theorem leNat_lt (bs : List Nat) : leNat bs < 256 ^ bs.length := by
  induction bs with
  | nil => simp [leNat]
  | cons b rest ih =>
    have hb : b % 256 < 256 := Nat.mod_lt _ (by omega)
    simp only [leNat, List.foldr_cons, List.length_cons] at *
    have : (256 : Nat) ^ (rest.length + 1) = 256 * 256 ^ rest.length := by
      ring
    omega

/-- The unsigned assembly of four bytes fits 32 bits. -/
theorem leNat_four_lt (b0 b1 b2 b3 : Nat) : leNat [b0, b1, b2, b3] < 2 ^ 32 := by
  have h := leNat_lt [b0, b1, b2, b3]
  norm_num at h ⊢
  exact h

/-- `parse_some` at an `int32_cd` tag: exactly 4 payload bytes are
consumed and one `Int64Value` event is emitted. -/
theorem parse_some_int32_eq (fuel b0 b1 b2 b3 : Nat) (rest : List Nat)
    (ev : List BEvent) (d : Nat) (e : Bool) :
    parse_some (fuel + 1) int32_cd ⟨b0 :: b1 :: b2 :: b3 :: rest, ev, d, e⟩ =
      BResult.ok ⟨rest, ev ++ [BEvent.int64Value (int32ofLE [b0, b1, b2, b3])], d, e⟩ := by
  have hread : srcReadN 4 ⟨b0 :: b1 :: b2 :: b3 :: rest, ev, d, e⟩ =
      some ([b0, b1, b2, b3], ⟨rest, ev, d, e⟩) := by
    unfold srcReadN
    have h4 : 4 ≤ (BState.input ⟨b0 :: b1 :: b2 :: b3 :: rest, ev, d, e⟩).length := by
      simp
    rw [if_pos h4]
    simp [List.take_succ_cons, List.drop_succ_cons]
  unfold parse_some
  simp only [int32_cd, double_cd, string_cd, document_cd, array_cd,
    binary_cd, bool_cd, null_cd, timestamp_cd, int64_cd]
  norm_num
  rw [hread]
  rfl

/-- The signed 32-bit decode lies in the signed 32-bit range. -/
theorem int32ofLE_bounds (b0 b1 b2 b3 : Nat) :
    -(2 ^ 31) ≤ int32ofLE [b0, b1, b2, b3] ∧ int32ofLE [b0, b1, b2, b3] < 2 ^ 31 := by
  have hlt := leNat_four_lt b0 b1 b2 b3
  simp only [int32ofLE]
  split
  · exact ⟨by omega, by omega⟩
  · exact ⟨by omega, by omega⟩

/-- Sign extension preserves the 32-bit residue. -/
theorem int32ofLE_emod_eq (b0 b1 b2 b3 : Nat) :
    int32ofLE [b0, b1, b2, b3] % (2 ^ 32 : Int) = (leNat [b0, b1, b2, b3] : Int) := by
  have hlt := leNat_four_lt b0 b1 b2 b3
  simp only [int32ofLE]
  split
  · have h0 : (0 : Int) ≤ (leNat [b0, b1, b2, b3] : Int) := by omega
    rw [Int.emod_eq_of_lt h0 (by exact_mod_cast hlt)]
  · omega

/-- Folding `emplace` over yielded pairs never changes the first match
for a key: an entry already present shadows every later duplicate. -/
theorem mapEmplace_fold_find (k : String) :
    ∀ (pairs m : List (String × α)),
      ((pairs.foldl (fun m kv => mapEmplace m kv.1 kv.2) m).find? (fun p => p.1 = k)) =
        (match m.find? (fun p => p.1 = k) with
         | some e => some e
         | none => pairs.find? (fun p => p.1 = k)) := by
  intro pairs
  induction pairs with
  | nil =>
    intro m
    cases h : m.find? (fun p => p.1 = k) <;> simp [h, List.find?]
  | cons kv rest ih =>
    intro m
    simp only [List.foldl_cons]
    rw [ih (mapEmplace m kv.1 kv.2)]
    unfold mapEmplace
    by_cases hany : m.any (fun p => p.1 = kv.1)
    · rw [if_pos hany]
      cases hf : m.find? (fun p => p.1 = k) with
      | some e => simp
      | none =>
        simp only []
        by_cases hk : kv.1 = k
        · exfalso
          subst hk
          rw [List.any_eq_true] at hany
          obtain ⟨x, hx, hpx⟩ := hany
          have := List.find?_eq_none.mp hf x hx
          simp at hpx this
          exact this hpx
        · rw [List.find?_cons_of_neg]
          simp [hk]
    · rw [if_neg hany]
      rw [List.find?_append]
      cases hf : m.find? (fun p => p.1 = k) with
      | some e => simp
      | none =>
        simp only [Option.none_or]
        by_cases hk : kv.1 = k
        · subst hk
          rw [List.find?_cons_of_pos, List.find?_cons_of_pos] <;> simp
        · rw [List.find?_cons_of_neg, List.find?_cons_of_neg] <;> simp [hk]

/-- C2 counterexample: the event stream of the object
`{"a": 1, "a": 2}` yields the pairs `("a",1), ("a",2)` in order, and
map-like decode (`emplace` per pair) binds `"a"` to `1` — the earlier
entry — not to `2` as the claim states. -/
theorem c2_counterexample :
    objectStreamPairs [CEvent.beginObject, CEvent.name "a", CEvent.intValue 1,
        CEvent.name "a", CEvent.intValue 2, CEvent.endObject] =
      some [("a", 1), ("a", 2)] ∧
    mapLookup (mapDecode [("a", (1 : Int)), ("a", 2)]) "a" = some 1 ∧
    mapLookup (mapDecode [("a", (1 : Int)), ("a", 2)]) "a" ≠ some 2 := by
  refine ⟨?_, by decide, by decide⟩
  decide

/-- C2 as amended: map-like decode is first-write-wins — in the decoded
map every key is bound to the value of the earliest yielded entry with
that key (`std::map::emplace` inserts only when the key is absent). -/
theorem c2_map_decode_first_write_wins (pairs : List (String × α)) (k : String) :
    mapLookup (mapDecode pairs) k =
      (pairs.find? (fun p => p.1 = k)).map (fun p => p.2) := by
  unfold mapLookup mapDecode
  rw [mapEmplace_fold_find k pairs []]
  simp [List.find?]

/-- Setting the element right after a prefix `A` rewrites the head of
the suffix. -/
theorem set_append_length (A l : List α) (x : α) :
    (A ++ l).set A.length x = A ++ l.set 0 x := by
  induction A with
  | nil => simp
  | cons a A ih => simp [List.set, ih]

/-- Once the write index reaches the capacity, the fixed-array fill
loop drains the rest of the stream without touching the array. -/
theorem arrayFillLoop_done (K : Nat) :
    ∀ (xs v : List α) (i : Nat), K ≤ i → arrayFillLoop K xs v i = v := by
  intro xs
  induction xs with
  | nil => intro v i h; rfl
  | cons x xs ih =>
    intro v i h
    unfold arrayFillLoop
    rw [if_neg (by omega)]
    exact ih v i h

/-- Closed form of the fixed-array fill loop from a partially filled
array: prefix `A` already assigned, remaining slots default. -/
theorem arrayFillLoop_eq (K : Nat) (d : α) :
    ∀ (xs A : List α), A.length ≤ K →
      arrayFillLoop K xs (A ++ List.replicate (K - A.length) d) A.length =
        A ++ xs.take (K - A.length) ++ List.replicate (K - A.length - xs.length) d := by
  intro xs
  induction xs with
  | nil => intro A hA; simp [arrayFillLoop]
  | cons x xs ih =>
    intro A hA
    unfold arrayFillLoop
    by_cases hAK : A.length < K
    · rw [if_pos hAK]
      have hrep : List.replicate (K - A.length) d = d :: List.replicate (K - A.length - 1) d := by
        rw [show K - A.length = (K - A.length - 1) + 1 by omega]
        rfl
      rw [hrep, set_append_length]
      have hset : (d :: List.replicate (K - A.length - 1) d).set 0 x =
          x :: List.replicate (K - A.length - 1) d := rfl
      rw [hset]
      have hcnt : K - A.length - 1 = K - (A ++ [x]).length := by
        simp
        omega
      have hA1 : A ++ x :: List.replicate (K - A.length - 1) d =
          (A ++ [x]) ++ List.replicate (K - (A ++ [x]).length) d := by
        rw [List.append_assoc, ← hcnt]
        rfl
      have hlen1 : A.length + 1 = (A ++ [x]).length := by simp
      rw [hA1, hlen1, ih (A ++ [x]) (by simp; omega)]
      have e1 : K - A.length = (K - (A.length + 1)) + 1 := by omega
      rw [e1, List.take_succ_cons]
      have e2 : K - (A.length + 1) + 1 - (xs.length + 1) = K - (A.length + 1) - xs.length := by
        omega
      simp only [List.length_cons, e2, List.length_append, List.length_singleton]
      simp
    · rw [if_neg hAK]
      have hK : A.length = K := by omega
      rw [arrayFillLoop_done K xs _ A.length (by omega)]
      simp [hK]

/-- Closed form of the `error_code`-overload fill loop (stops pulling
at capacity instead of draining). -/
theorem arrayFillLoopEc_eq (K : Nat) (d : α) :
    ∀ (xs A : List α), A.length ≤ K →
      arrayFillLoopEc K xs (A ++ List.replicate (K - A.length) d) A.length =
        A ++ xs.take (K - A.length) ++ List.replicate (K - A.length - xs.length) d := by
  intro xs
  induction xs with
  | nil => intro A hA; simp [arrayFillLoopEc]
  | cons x xs ih =>
    intro A hA
    unfold arrayFillLoopEc
    by_cases hAK : A.length < K
    · rw [if_pos hAK]
      have hrep : List.replicate (K - A.length) d = d :: List.replicate (K - A.length - 1) d := by
        rw [show K - A.length = (K - A.length - 1) + 1 by omega]
        rfl
      rw [hrep, set_append_length]
      have hset : (d :: List.replicate (K - A.length - 1) d).set 0 x =
          x :: List.replicate (K - A.length - 1) d := rfl
      rw [hset]
      have hcnt : K - A.length - 1 = K - (A ++ [x]).length := by
        simp
        omega
      have hA1 : A ++ x :: List.replicate (K - A.length - 1) d =
          (A ++ [x]) ++ List.replicate (K - (A ++ [x]).length) d := by
        rw [List.append_assoc, ← hcnt]
        rfl
      have hlen1 : A.length + 1 = (A ++ [x]).length := by simp
      rw [hA1, hlen1, ih (A ++ [x]) (by simp; omega)]
      have e1 : K - A.length = (K - (A.length + 1)) + 1 := by omega
      rw [e1, List.take_succ_cons]
      have e2 : K - (A.length + 1) + 1 - (xs.length + 1) = K - (A.length + 1) - xs.length := by
        omega
      simp only [List.length_cons, e2, List.length_append, List.length_singleton]
      simp
    · rw [if_neg hAK]
      have hK : A.length = K := by omega
      simp [hK]

/-- C5: decoding a stream of `N` elements into `std::array<T,K>` keeps
exactly the first `min N K` elements in order and leaves the trailing
`K - N` slots at their default-initialized value `d`, and neither
overload reports an error: when `N > K` the surplus is silently
dropped (`take K`, `replicate 0`), when `N < K` the tail stays default
(`replicate (K - N)`), and the `error_code` overload returns with the
error slot still clear (`false`). -/
theorem c5_fixed_array_truncation_policy (K : Nat) (d : α) (elems : List α) :
    stdArrayDecode K d elems = elems.take K ++ List.replicate (K - elems.length) d ∧
    stdArrayDecodeEc K d elems =
      (elems.take K ++ List.replicate (K - elems.length) d, false) := by
  constructor
  · have h := arrayFillLoop_eq K d elems [] (by simp)
    simpa [stdArrayDecode] using h
  · have h := arrayFillLoopEc_eq K d elems [] (by simp)
    simp only [List.nil_append, List.length_nil, Nat.sub_zero] at h
    simp only [stdArrayDecodeEc, h]

/-- The signed 32-bit decode of any 4-byte buffer lies in the signed
32-bit range. -/
theorem int32ofLE_range (lb : List Nat) (h : lb.length = 4) :
    -(2 ^ 31) ≤ int32ofLE lb ∧ int32ofLE lb < 2 ^ 31 := by
  have hlt : leNat lb < 2 ^ 32 := by
    have hb := leNat_lt lb
    rw [h] at hb
    norm_num at hb ⊢
    exact hb
  simp only [int32ofLE]
  split
  · exact ⟨by omega, by omega⟩
  · exact ⟨by omega, by omega⟩

/-- C4: a string element whose declared length `L` exceeds the bytes
remaining after the length prefix by more than the 1 terminator byte
makes `parse_some` fail with the truncated-input throw: the state is
returned as it stood after the length prefix — in particular no event
has been emitted and no truncated string value is produced. -/
theorem c4_truncated_string_throws (fuel : Nat) (lb rest : List Nat)
    (ev : List BEvent) (d : Nat) (e : Bool)
    (hlb : lb.length = 4)
    (hlen : (rest.length : Int) + 1 < int32ofLE lb) :
    parse_some (fuel + 1) string_cd ⟨lb ++ rest, ev, d, e⟩ =
      BResult.thrown ⟨rest, ev, d, e⟩ := by
  have hrange := int32ofLE_range lb hlb
  have hread : srcReadN 4 ⟨lb ++ rest, ev, d, e⟩ = some (lb, ⟨rest, ev, d, e⟩) := by
    unfold srcReadN
    have h4 : 4 ≤ (BState.input ⟨lb ++ rest, ev, d, e⟩).length := by
      simp [hlb]
    rw [if_pos h4]
    have ht : (lb ++ rest).take 4 = lb := by
      rw [show (4 : Nat) = lb.length from hlb.symm]
      exact List.take_left lb rest
    have hd : (lb ++ rest).drop 4 = rest := by
      rw [show (4 : Nat) = lb.length from hlb.symm]
      exact List.drop_left lb rest
    simp [ht, hd]
  have hnone : srcReadN (sizeTofNat (int32ofLE lb - 1)) ⟨rest, ev, d, e⟩ = none := by
    unfold srcReadN
    rw [if_neg]
    simp only [BState.input]
    unfold sizeTofNat
    omega
  unfold parse_some
  simp only [string_cd, double_cd]
  norm_num
  rw [hread]
  simp only [hnone]

/-- C4 witnessed: declared length 9 with only 2 bytes remaining. -/
theorem c4_truncated_string_throws_witness :
    parse_some 1 string_cd ⟨[9, 0, 0, 0] ++ [104, 105], [], 0, false⟩ =
      BResult.thrown ⟨[104, 105], [], 0, false⟩ :=
  c4_truncated_string_throws 0 [9, 0, 0, 0] [104, 105] [] 0 false (by decide) (by decide)

/-- C9: when the `L - 1` declared text bytes are present, the string
element decodes successfully and emits exactly its `StringValue`
event, whatever the following terminator byte holds — it is consumed
unchecked when present (`rest` non-empty) and its absence (`rest`
empty, input ending right after the text) is not an error either. -/
theorem c9_string_terminator_unchecked (fuel : Nat) (lb text rest : List Nat)
    (ev : List BEvent) (d : Nat) (e : Bool)
    (hlb : lb.length = 4)
    (hlen : int32ofLE lb = (text.length : Int) + 1) :
    parse_some (fuel + 1) string_cd ⟨lb ++ (text ++ rest), ev, d, e⟩ =
      BResult.ok ⟨rest.drop 1, ev ++ [BEvent.stringValue text], d, e⟩ := by
  have hrange := int32ofLE_range lb hlb
  have hread : srcReadN 4 ⟨lb ++ (text ++ rest), ev, d, e⟩ =
      some (lb, ⟨text ++ rest, ev, d, e⟩) := by
    unfold srcReadN
    have h4 : 4 ≤ (BState.input ⟨lb ++ (text ++ rest), ev, d, e⟩).length := by
      simp [hlb]
    rw [if_pos h4]
    have ht : (lb ++ (text ++ rest)).take 4 = lb := by
      rw [show (4 : Nat) = lb.length from hlb.symm]
      exact List.take_left lb (text ++ rest)
    have hd : (lb ++ (text ++ rest)).drop 4 = text ++ rest := by
      rw [show (4 : Nat) = lb.length from hlb.symm]
      exact List.drop_left lb (text ++ rest)
    simp [ht, hd]
  have hcnt : sizeTofNat (int32ofLE lb - 1) = text.length := by
    unfold sizeTofNat
    omega
  have hread2 : srcReadN (sizeTofNat (int32ofLE lb - 1)) ⟨text ++ rest, ev, d, e⟩ =
      some (text, ⟨rest, ev, d, e⟩) := by
    rw [hcnt]
    unfold srcReadN
    have h4 : text.length ≤ (BState.input ⟨text ++ rest, ev, d, e⟩).length := by
      simp
    rw [if_pos h4]
    simp [List.take_left, List.drop_left]
  unfold parse_some
  simp only [string_cd, double_cd]
  norm_num
  rw [hread]
  simp only [hread2]
  cases rest with
  | nil => simp [srcGet, emit]
  | cons c r => simp [srcGet, emit]

/-- C9 witnessed: declared length 3, text "hi", a non-NUL byte `7` in
terminator position, one further byte left in the input. -/
theorem c9_string_terminator_unchecked_witness :
    parse_some 1 string_cd ⟨[3, 0, 0, 0] ++ ([104, 105] ++ [7, 42]), [], 0, false⟩ =
      BResult.ok ⟨[42], [BEvent.stringValue [104, 105]], 0, false⟩ :=
  c9_string_terminator_unchecked 0 [3, 0, 0, 0] [104, 105] [7, 42] [] 0 false
    (by decide) (by decide)

/-- C8: an `int32_cd` element consumes exactly its 4 little-endian
payload bytes and emits `Int64Value` of the two's-complement signed
value: the emitted integer lies in the signed 32-bit range and agrees
with the unsigned assembly modulo `2^32` (sign extension, not
reinterpretation); in particular bytes `FF FF FF FF` decode to `-1`,
not `4294967295`. -/
theorem c8_int32_sign_extended (fuel b0 b1 b2 b3 : Nat) (rest : List Nat)
    (ev : List BEvent) (d : Nat) (e : Bool) :
    parse_some (fuel + 1) int32_cd ⟨b0 :: b1 :: b2 :: b3 :: rest, ev, d, e⟩ =
      BResult.ok ⟨rest, ev ++ [BEvent.int64Value (int32ofLE [b0, b1, b2, b3])], d, e⟩ ∧
    (-(2 ^ 31) ≤ int32ofLE [b0, b1, b2, b3] ∧ int32ofLE [b0, b1, b2, b3] < 2 ^ 31) ∧
    int32ofLE [b0, b1, b2, b3] % (2 ^ 32 : Int) = (leNat [b0, b1, b2, b3] : Int) ∧
    int32ofLE [255, 255, 255, 255] = -1 ∧
    int32ofLE [255, 255, 255, 255] ≠ (4294967295 : Int) :=
  ⟨parse_some_int32_eq fuel b0 b1 b2 b3 rest ev d e,
    int32ofLE_bounds b0 b1 b2 b3,
    int32ofLE_emod_eq b0 b1 b2 b3,
    by decide, by decide⟩

/-- Bracket-checking distributes over concatenation. -/
theorem balRun_append (a b : List BEvent) (st : List Bool) :
    balRun (a ++ b) st =
      match balRun a st with
      | none => none
      | some st1 => balRun b st1 := by
  induction a generalizing st with
  | nil => simp [balRun]
  | cons e es ih =>
    simp only [List.cons_append, balRun]
    cases balStep e st with
    | none => rfl
    | some st1 => exact ih st1

/-- The empty event list is balance-neutral. -/
theorem neutral_nil : Neutral ([] : List BEvent) := fun _ => rfl

/-- Balance-neutral lists concatenate. -/
theorem neutral_append {a b : List BEvent} (ha : Neutral a) (hb : Neutral b) :
    Neutral (a ++ b) := by
  intro st
  rw [balRun_append, ha st]
  exact hb st

/-- A single scalar event is balance-neutral. -/
theorem neutral_scalar (e : BEvent) (h : isScalarEv e = true) : Neutral [e] := by
  intro st
  cases e <;> simp_all [isScalarEv, balRun, balStep]

/-- Wrapping a neutral list in a matched `BeginObject`/`EndObject` pair
stays neutral. -/
theorem neutral_wrapObj {mid : List BEvent} (h : Neutral mid) :
    Neutral (BEvent.beginObject :: (mid ++ [BEvent.endObject])) := by
  intro st
  simp only [balRun, balStep]
  rw [balRun_append, h (true :: st)]
  simp [balRun, balStep]

/-- Wrapping a neutral list in a matched `BeginArray`/`EndArray` pair
stays neutral. -/
theorem neutral_wrapArr {mid : List BEvent} (h : Neutral mid) :
    Neutral (BEvent.beginArray :: (mid ++ [BEvent.endArray])) := by
  intro st
  simp only [balRun, balStep]
  rw [balRun_append, h (false :: st)]
  simp [balRun, balStep]

/-- `emit` leaves the nesting depth unchanged. -/
theorem emit_depth (e : BEvent) (s : BState) : (emit e s).depth = s.depth := rfl

/-- `emit` appends exactly one event. -/
theorem emit_events (e : BEvent) (s : BState) :
    (emit e s).events = s.events ++ [e] := rfl

/-- `beginStruct` increments the nesting depth. -/
theorem beginStruct_depth (e : BEvent) (s : BState) :
    (beginStruct e s).depth = s.depth + 1 := rfl

/-- `beginStruct` appends exactly its begin event. -/
theorem beginStruct_events (e : BEvent) (s : BState) :
    (beginStruct e s).events = s.events ++ [e] := rfl

/-- `endStruct` decrements the nesting depth. -/
theorem endStruct_depth (e : BEvent) (s : BState) :
    (endStruct e s).depth = s.depth - 1 := rfl

/-- `endStruct` appends exactly its end event. -/
theorem endStruct_events (e : BEvent) (s : BState) :
    (endStruct e s).events = s.events ++ [e] := rfl

set_option maxHeartbeats 2000000 in
/-- Mutual invariant of the reader: every normally returning call of
`read`, `parse_e_list` or `parse_some` preserves `nesting_depth_` and
appends a balance-neutral event segment; `read`'s segment is exactly
one matched `BeginObject`/`EndObject` pair around its element list. -/
theorem bal_invariant (fuel : Nat) :
    (∀ s s', read fuel s = BResult.ok s' →
        s'.depth = s.depth ∧
        ∃ mid, s'.events = s.events ++ (BEvent.beginObject :: (mid ++ [BEvent.endObject])) ∧
          Neutral mid) ∧
    (∀ ty s s', parse_e_list fuel ty s = BResult.ok s' →
        s'.depth = s.depth ∧ ∃ es, s'.events = s.events ++ es ∧ Neutral es) ∧
    (∀ t s s', parse_some fuel t s = BResult.ok s' →
        s'.depth = s.depth ∧ ∃ es, s'.events = s.events ++ es ∧ Neutral es) := by
  induction fuel with
  | zero =>
    refine ⟨?_, ?_, ?_⟩
    · intro s s' h
      simp [BsonReader.read] at h
    · intro ty s s' h
      simp [parse_e_list] at h
    · intro t s s' h
      simp [parse_some] at h
  | succ n ih =>
    obtain ⟨ihR, ihL, ihS⟩ := ih
    refine ⟨?_, ?_, ?_⟩
    · -- read (n+1)
      intro s s' h
      unfold BsonReader.read at h
      split at h
      · exact absurd h (by simp)
      · rename_i len s1 heq
        split at h
        · rename_i s3 heq2
          injection h with h1
          subst h1
          obtain ⟨he1, hd1, _⟩ := srcReadN_fields heq
          obtain ⟨hd3, es, he3, hes⟩ := ihL _ _ _ heq2
          rw [beginStruct_depth] at hd3
          rw [beginStruct_events, he1] at he3
          refine ⟨?_, es, ?_, hes⟩
          · rw [endStruct_depth, hd3, hd1]
            omega
          · rw [endStruct_events, he3]
            simp
        · rename_i hne
          exact absurd h (fun hh => (hne s' hh).elim)
    · -- parse_e_list (n+1)
      intro ty s s' h
      unfold BsonReader.parse_e_list at h
      split at h
      · injection h with h1
        subst h1
        exact ⟨rfl, [], by simp, neutral_nil⟩
      · rename_i t s1 heqget
        obtain ⟨he1, hd1, _⟩ := srcGet_fields heqget
        by_cases ht : t = 0
        · rw [if_pos ht] at h
          injection h with h1
          subst h1
          exact ⟨hd1, [], by simp [he1], neutral_nil⟩
        · rw [if_neg ht] at h
          split at h
          rename_i nm rest heqcs
          split at h
          · rename_i s4 heqps
            obtain ⟨hd4, es1, he4, hes1⟩ := ihS _ _ _ heqps
            obtain ⟨hd5, es2, he5, hes2⟩ := ihL _ _ _ h
            have hw : (withName ty nm { s1 with input := rest }).depth = s.depth ∧
                ∃ pre, (withName ty nm { s1 with input := rest }).events = s.events ++ pre ∧
                  Neutral pre := by
              unfold withName
              split
              · refine ⟨?_, [BEvent.name nm], ?_, neutral_scalar _ rfl⟩
                · rw [emit_depth]
                  exact hd1
                · rw [emit_events]
                  simp only [he1]
              · exact ⟨hd1, [], by simp [he1], neutral_nil⟩
            obtain ⟨hwd, pre, hwe, hwn⟩ := hw
            refine ⟨?_, pre ++ es1 ++ es2, ?_, ?_⟩
            · rw [hd5, hd4, hwd]
            · rw [he5, he4, hwe]
              simp
            · exact neutral_append (neutral_append hwn hes1) hes2
          · rename_i hne
            exact absurd h (fun hh => (hne s' hh).elim)
    · -- parse_some (n+1)
      intro t s s' h
      unfold BsonReader.parse_some at h
      split_ifs at h with h1 h2 h3 h4 h5 h6 h7 h8 h9 h10
      · -- double
        split at h
        · exact absurd h (by simp)
        · rename_i bs s1 heq
          injection h with hh
          subst hh
          obtain ⟨he1, hd1, _⟩ := srcReadN_fields heq
          exact ⟨by rw [emit_depth, hd1], [BEvent.doubleValue bs],
            by rw [emit_events, he1], neutral_scalar _ rfl⟩
      · -- string
        split at h
        · exact absurd h (by simp)
        · rename_i lb s1 heq
          split at h
          · exact absurd h (by simp)
          · rename_i txt s2 heq2
            obtain ⟨he1, hd1, _⟩ := srcReadN_fields heq
            obtain ⟨he2, hd2, _⟩ := srcReadN_fields heq2
            split at h
            · injection h with hh
              subst hh
              refine ⟨by rw [emit_depth, hd2, hd1], [BEvent.stringValue txt], ?_,
                neutral_scalar _ rfl⟩
              rw [emit_events, he2, he1]
            · rename_i c s3 heq3
              obtain ⟨he3, hd3, _⟩ := srcGet_fields heq3
              injection h with hh
              subst hh
              refine ⟨by rw [emit_depth, hd3, hd2, hd1], [BEvent.stringValue txt], ?_,
                neutral_scalar _ rfl⟩
              rw [emit_events, he3, he2, he1]
      · -- document
        split at h
        · rename_i s1 heq
          injection h with hh
          subst hh
          obtain ⟨hd1, mid, he1, hmid⟩ := ihR _ _ heq
          exact ⟨hd1, BEvent.beginObject :: (mid ++ [BEvent.endObject]), he1,
            neutral_wrapObj hmid⟩
        · rename_i hne
          exact absurd h (fun hh => (hne s' hh).elim)
      · -- array
        split at h
        · exact absurd h (by simp)
        · rename_i len s1 heq
          split at h
          · rename_i s3 heq2
            injection h with hh
            subst hh
            obtain ⟨he1, hd1, _⟩ := srcReadN_fields heq
            obtain ⟨hd3, es, he3, hes⟩ := ihL _ _ _ heq2
            rw [beginStruct_depth] at hd3
            rw [beginStruct_events, he1] at he3
            refine ⟨?_, BEvent.beginArray :: (es ++ [BEvent.endArray]), ?_,
              neutral_wrapArr hes⟩
            · rw [endStruct_depth, hd3, hd1]
              omega
            · rw [endStruct_events, he3]
              simp
          · rename_i hne
            exact absurd h (fun hh => (hne s' hh).elim)
      · -- null
        injection h with hh
        subst hh
        exact ⟨rfl, [BEvent.nullValue], by rw [emit_events], neutral_scalar _ rfl⟩
      · -- bool
        split at h
        · exact absurd h (by simp)
        · rename_i b s1 heq
          injection h with hh
          subst hh
          obtain ⟨he1, hd1, _⟩ := srcGet_fields heq
          exact ⟨by rw [emit_depth, hd1], [BEvent.boolValue (decide (b % 256 ≠ 0))],
            by rw [emit_events, he1], neutral_scalar _ rfl⟩
      · -- int32
        split at h
        · exact absurd h (by simp)
        · rename_i bs s1 heq
          injection h with hh
          subst hh
          obtain ⟨he1, hd1, _⟩ := srcReadN_fields heq
          exact ⟨by rw [emit_depth, hd1], [BEvent.int64Value (int32ofLE bs)],
            by rw [emit_events, he1], neutral_scalar _ rfl⟩
      · -- timestamp
        split at h
        · exact absurd h (by simp)
        · rename_i bs s1 heq
          injection h with hh
          subst hh
          obtain ⟨he1, hd1, _⟩ := srcReadN_fields heq
          exact ⟨by rw [emit_depth, hd1], [BEvent.uint64Value (leNat bs)],
            by rw [emit_events, he1], neutral_scalar _ rfl⟩
      · -- int64
        split at h
        · exact absurd h (by simp)
        · rename_i bs s1 heq
          injection h with hh
          subst hh
          obtain ⟨he1, hd1, _⟩ := srcReadN_fields heq
          exact ⟨by rw [emit_depth, hd1], [BEvent.int64Value (int64ofLE bs)],
            by rw [emit_events, he1], neutral_scalar _ rfl⟩
      · -- binary
        split at h
        · exact absurd h (by simp)
        · rename_i lb s1 heq
          split at h
          · exact absurd h (by simp)
          · rename_i bs s2 heq2
            injection h with hh
            subst hh
            obtain ⟨he1, hd1, _⟩ := srcReadN_fields heq
            obtain ⟨he2, hd2, _⟩ := srcReadN_fields heq2
            exact ⟨by rw [emit_depth, hd2, hd1], [BEvent.byteStringValue bs],
              by rw [emit_events, he2, he1], neutral_scalar _ rfl⟩
      · -- unrecognized tag
        injection h with hh
        subst hh
        exact ⟨rfl, [], by simp, neutral_nil⟩

set_option maxHeartbeats 1000000 in
/-- C10: every invocation of `read` that returns normally emits exactly
one matched `BeginObject`/`EndObject` pair around its (balance-neutral)
element-list events, every `array_cd` case of `parse_some` that returns
normally emits exactly one matched `BeginArray`/`EndArray` pair around
its element events, the emitted stream passes the kind-aware bracket
check, and `nesting_depth_` is restored to its value on entry. -/
theorem c10_reader_balanced (fuel : Nat) (s s' : BState) :
    (read fuel s = BResult.ok s' →
        s'.depth = s.depth ∧
        ∃ mid, s'.events = s.events ++ (BEvent.beginObject :: (mid ++ [BEvent.endObject])) ∧
          Neutral mid ∧
          balRun (BEvent.beginObject :: (mid ++ [BEvent.endObject])) [] = some []) ∧
    (parse_some fuel array_cd s = BResult.ok s' →
        s'.depth = s.depth ∧
        ∃ mid, s'.events = s.events ++ (BEvent.beginArray :: (mid ++ [BEvent.endArray])) ∧
          Neutral mid ∧
          balRun (BEvent.beginArray :: (mid ++ [BEvent.endArray])) [] = some []) := by
  constructor
  · intro h
    obtain ⟨hd, mid, he, hmid⟩ := (bal_invariant fuel).1 s s' h
    exact ⟨hd, mid, he, hmid, neutral_wrapObj hmid []⟩
  · intro h
    cases fuel with
    | zero => simp [parse_some] at h
    | succ n =>
      unfold BsonReader.parse_some at h
      simp only [array_cd, double_cd, string_cd, document_cd] at h
      norm_num at h
      split at h
      · exact absurd h (by simp)
      · rename_i len s1 heq
        split at h
        · rename_i s3 heq2
          injection h with hh
          subst hh
          obtain ⟨he1, hd1, _⟩ := srcReadN_fields heq
          obtain ⟨hd3, es, he3, hes⟩ := (bal_invariant n).2.1 _ _ _ heq2
          rw [beginStruct_depth] at hd3
          rw [beginStruct_events, he1] at he3
          refine ⟨?_, es, ?_, hes, neutral_wrapArr hes []⟩
          · rw [endStruct_depth, hd3, hd1]
            omega
          · rw [endStruct_events, he3]
            simp
        · rename_i hne
          exact absurd h (fun hh => (hne s' hh).elim)

/-- C10 witnessed on the 5-byte empty document, for the `read` part and
the `array_cd` part of the claim. -/
theorem c10_reader_balanced_witness :
    ((⟨[], [BEvent.beginObject, BEvent.endObject], 0, false⟩ : BState).depth =
        (initState [0, 0, 0, 0, 0]).depth ∧
      ∃ mid, (⟨[], [BEvent.beginObject, BEvent.endObject], 0, false⟩ : BState).events =
          (initState [0, 0, 0, 0, 0]).events ++
            (BEvent.beginObject :: (mid ++ [BEvent.endObject])) ∧
        Neutral mid ∧
        balRun (BEvent.beginObject :: (mid ++ [BEvent.endObject])) [] = some []) ∧
    ((⟨[], [BEvent.beginArray, BEvent.endArray], 0, false⟩ : BState).depth =
        (initState [0, 0, 0, 0, 0]).depth ∧
      ∃ mid, (⟨[], [BEvent.beginArray, BEvent.endArray], 0, false⟩ : BState).events =
          (initState [0, 0, 0, 0, 0]).events ++
            (BEvent.beginArray :: (mid ++ [BEvent.endArray])) ∧
        Neutral mid ∧
        balRun (BEvent.beginArray :: (mid ++ [BEvent.endArray])) [] = some []) :=
  ⟨(c10_reader_balanced 4 (initState [0, 0, 0, 0, 0])
      ⟨[], [BEvent.beginObject, BEvent.endObject], 0, false⟩).1 (by decide),
   (c10_reader_balanced 4 (initState [0, 0, 0, 0, 0])
      ⟨[], [BEvent.beginArray, BEvent.endArray], 0, false⟩).2 (by decide)⟩
